import Mathlib

/-!
Shallow embedding of the `zngn` bank-catalog harvester (`src/main.rs`).

Modelling conventions:
- A Rust panic (an `unwrap` of `None`/`Err`) is modelled by returning `none`
  from an `Option`-valued embedding of the function.
- `tokio::spawn` + `join_all` is modelled by passing the list of per-shard
  task outcomes explicitly: each outcome is
  `Except JoinError (Except Error payload)` — the outer `Except` is the join
  result (a `JoinError` when the task panicked or was cancelled), the inner
  one is the `Result` returned by the task body.
- `std::collections::HashMap<BankCode, Bank>` is modelled as an association
  list with update-in-place insert semantics (one entry per key); equality of
  Rust `HashMap`s is order-insensitive, and the iteration order of a Rust
  `HashMap` is unspecified, so order-insensitive conclusions carry over
  directly while byte-level (rendering) conclusions are stated only up to
  entry order, or for single-entry catalogs where the order is forced.
- `serde_json` documents are modelled by the `Json` tree type (the persisted
  values only ever contain strings, arrays and objects), rendered to bytes by
  `Json.render`, which reproduces the escaping of `serde_json::to_string`.
- HTML rows are modelled positionally: a row is a list of cells; each cell
  carries its list of text-node descendants and, for the institution table,
  the `value` attribute of its first `button` descendant (if any).
-/

/-- Opaque payload of `reqwest::Error`. -/
structure ReqwestError where
  msg : String
deriving DecidableEq, Repr

/-- Opaque payload of `serde_json::Error`. -/
structure SerdeError where
  msg : String
deriving DecidableEq, Repr

/-- Opaque payload of `std::io::Error`. -/
structure IoError where
  msg : String
deriving DecidableEq, Repr

/-- Opaque payload of `tokio::task::JoinError` (task panic or cancellation). -/
structure JoinError where
  msg : String
deriving DecidableEq, Repr

/-- Embeds the `enum Error` of the crate (src/main.rs lines 22-28). -/
inductive Error where
  | FetchBankError (e : ReqwestError)
  | FechBranchError (e : ReqwestError)
  | LoadBanksFileFailed (e : SerdeError)
  | SaveBankFileFailed (e : IoError)
deriving DecidableEq, Repr

/-- The newtype `struct BankCode(String)` (src/main.rs line 241). -/
structure BankCode where
  val : String
deriving DecidableEq, Repr

/-- The `struct Branch { name, phonetic, code }` (src/main.rs lines 141-146). -/
structure Branch where
  name : String
  phonetic : String
  code : String
deriving DecidableEq, Repr

/-- The `struct Bank { name, phonetic, code, search_param, branches }`
(src/main.rs lines 30-37). -/
structure Bank where
  name : String
  phonetic : String
  code : BankCode
  search_param : String
  branches : List Branch
deriving DecidableEq, Repr

/-- Rust `Bank::new` (src/main.rs lines 40-48): wraps the code and starts with an
empty branch list. -/
def Bank.new (name phonetic code search_param : String) : Bank :=
  { name := name
    phonetic := phonetic
    code := BankCode.mk code
    search_param := search_param
    branches := [] }

/-- Rust `Branch::new` (src/main.rs lines 149-155). -/
def Branch.new (name phonetic code : String) : Branch :=
  { name := name, phonetic := phonetic, code := code }

/-- The association-list model of `HashMap<BankCode, Bank>`. -/
abbrev BankMap : Type := List (BankCode × Bank)

/-- Embeds `HashMap::insert` semantics: update the existing entry for the key in
place, otherwise append a fresh entry. -/
def mapInsert (m : BankMap) (k : BankCode) (v : Bank) : BankMap :=
  if m.any (fun p => p.1 = k) then
    m.map (fun p => if p.1 = k then (k, v) else p)
  else
    m ++ [(k, v)]

/-- Embeds `HashMap::extend` over the entries of another map, entry by entry. -/
def mapExtend (m : BankMap) (other : BankMap) : BankMap :=
  other.foldl (fun acc p => mapInsert acc p.1 p.2) m

/-- Rust `Bank::to_hashmap` (src/main.rs lines 50-54): a singleton map from the
code of the bank to the bank itself. -/
def Bank.to_hashmap (b : Bank) : BankMap :=
  mapInsert [] b.code b

/-- Rust `to_hashmap` (src/main.rs lines 243-249): folds `HashMap::extend` of each
singleton map of each bank over the input list. -/
def to_hashmap (banks : List Bank) : BankMap :=
  banks.foldl (fun data bank => mapExtend data bank.to_hashmap) []

/-- Embeds `HashMap` lookup on the association-list model. -/
def mapLookup (m : BankMap) (k : BankCode) : Option Bank :=
  (m.find? (fun p => p.1 = k)).map (fun p => p.2)

/-- Keys of the association-list model, in entry order. -/
def mapKeys (m : BankMap) : List BankCode :=
  m.map (fun p => p.1)

/-! ## HTML table rows -/

/-- A table cell, positionally: its text-node descendants in document order
and the `value` attribute of its first `button` descendant (outer `Option`:
a button exists; inner `Option`: the button carries a `value` attribute). -/
structure Cell where
  texts : List String
  button : Option (Option String)
deriving DecidableEq, Repr

/-- Embeds `Node::text` of a cell: concatenation of its text-node descendants. -/
def cellText (c : Cell) : String :=
  String.join c.texts

/-- A table row (`tr`): its cell children in order. -/
abbrev Row : Type := List Cell

/-- Embeds `node.find(Text).next()` on a row: the first text-node descendant. -/
def rowFirstText (row : Row) : Option String :=
  (row.map Cell.texts).flatten.head?

/-- Full text content of a row (concatenation of every text node under it). -/
def rowText (row : Row) : String :=
  String.join (row.map cellText)

/-- The sentinel "no matching data" string compared against in
`filter_blank`. -/
def sentinel : String := "該当するデータはありません"

/-- Rust `filter_blank` (src/main.rs lines 114-120): keep a row iff it has a text
node and the text of the first text node differs from the sentinel. -/
def filter_blank (row : Row) : Bool :=
  match rowFirstText row with
  | none => false
  | some t => decide (t ≠ sentinel)

/-- Body of the row-mapping closure in `parse_branches` (src/main.rs lines
127-137): three `datarows.next().unwrap()` calls — `none` models the panic
when a cell is missing. -/
def parseBranchRow (row : Row) : Option Branch :=
  match row with
  | c0 :: c1 :: c2 :: _ =>
    some { name := cellText c0, phonetic := cellText c1, code := cellText c2 }
  | _ => none

/-- Rust `parse_branches` (src/main.rs lines 122-139): filter the sentinel rows,
then map each surviving row positionally; a missing cell panics the whole
parse (`none`). -/
def parse_branches (rows : List Row) : Option (List Branch) :=
  (rows.filter filter_blank).mapM parseBranchRow

/-- Body of the row-mapping closure in `parse_banks` (src/main.rs lines
176-196): four cells, the fourth holding a `button` whose `value` attribute
is the opaque search token; any missing piece panics (`none`). -/
def parseBankRow (row : Row) : Option Bank :=
  match row with
  | c0 :: c1 :: c2 :: c3 :: _ =>
    match c3.button with
    | some (some v) =>
      some (Bank.new (cellText c0) (cellText c1) (cellText c2) v)
    | _ => none
  | _ => none

/-- Rust `parse_banks` (src/main.rs lines 171-198): same shape as
`parse_branches` over the institution table rows. -/
def parse_banks (rows : List Row) : Option (List Bank) :=
  (rows.filter filter_blank).mapM parseBankRow

/-! ## Fan-out scheduling

The outcome of each spawned task is `Except JoinError (Except Error payload)`:
`.error j` is a `JoinError` (the task panicked or was cancelled), `.ok r` is
the `Result` returned by the task body. -/

/-- Outcome of one joined task. -/
abbrev TaskOutcome (α : Type) : Type := Except JoinError (Except Error α)

/-- Embeds `Result::is_ok` on the join result, as used in the `.filter` call. -/
def taskIsOk {α : Type} (r : TaskOutcome α) : Bool :=
  match r with
  | .ok _ => true
  | .error _ => false

/-- The `task_result.unwrap().unwrap()` step: the first `unwrap` takes the
join result apart, the second takes the own `Result` of the task apart; either
`Err` panics (`none`). -/
def unwrapTwice {α : Type} (r : TaskOutcome α) : Option α :=
  match r with
  | .ok (.ok v) => some v
  | _ => none

/-- Rust `fetch_all_banks` (src/main.rs lines 204-222) from the join point on:
filter the outcomes on `is_ok` (dropping only `JoinError`s), then
`unwrap().unwrap()` each survivor (panicking on a task that returned `Err`),
then flatten. `none` models the panic. -/
def fetch_all_banks (results : List (TaskOutcome (List Bank))) :
    Option (List Bank) :=
  ((results.filter taskIsOk).mapM unwrapTwice).map List.flatten

/-- Rust `Bank::fetch_all_branches` (src/main.rs lines 91-111) from the join point
on: identical filter/unwrap/flatten pipeline, whose flattened output is
assigned wholesale to `self.branches`; the function then returns
`Ok(self.clone())`. `none` models a panic in the pipeline. -/
def Bank.fetch_all_branches (bank : Bank)
    (results : List (TaskOutcome (List Branch))) :
    Option (Except Error Bank) :=
  (((results.filter taskIsOk).mapM unwrapTwice).map List.flatten).map
    (fun brs => Except.ok { bank with branches := brs })

/-! ## JSON documents -/

/-- A `serde_json` document tree. The persisted catalog only ever contains
strings, arrays and objects. -/
inductive Json where
  | str (s : String)
  | arr (elems : List Json)
  | obj (fields : List (String × Json))
deriving Repr

/-- Hexadecimal digit (lowercase), for control-character escapes. -/
def hexDigit (n : Nat) : Char :=
  if n < 10 then Char.ofNat (48 + n) else Char.ofNat (87 + n)

/-- Escaping done by `serde_json` for one character inside a JSON string literal:
quote, backslash and the control characters are escaped, everything else is
emitted verbatim (UTF-8, no non-ASCII escaping). -/
def escapeChar (c : Char) : String :=
  if c = '"' then "\\\""
  else if c = '\\' then "\\\\"
  else if c = '\x08' then "\\b"
  else if c = '\x09' then "\\t"
  else if c = '\x0a' then "\\n"
  else if c = '\x0c' then "\\f"
  else if c = '\x0d' then "\\r"
  else if c.toNat < 32 then
    String.mk ['\\', 'u', '0', '0', hexDigit (c.toNat / 16), hexDigit (c.toNat % 16)]
  else String.singleton c

/-- A JSON string literal with its quotes. -/
def jsonQuote (s : String) : String :=
  "\"" ++ String.join (s.data.map escapeChar) ++ "\""

mutual

/-- Embeds `serde_json::to_string`: compact rendering, no whitespace. -/
def Json.render : Json → String
  | .str s => jsonQuote s
  | .arr elems => "[" ++ Json.renderArr elems ++ "]"
  | .obj fields => "\x7b" ++ Json.renderObj fields ++ "\x7d"

/-- Comma-separated rendering of array elements. -/
def Json.renderArr : List Json → String
  | [] => ""
  | [j] => Json.render j
  | j :: rest => Json.render j ++ "," ++ Json.renderArr rest

/-- Comma-separated rendering of object fields. -/
def Json.renderObj : List (String × Json) → String
  | [] => ""
  | [(k, v)] => jsonQuote k ++ ":" ++ Json.render v
  | (k, v) :: rest => jsonQuote k ++ ":" ++ Json.render v ++ "," ++ Json.renderObj rest

end

/-- Serialization of `Branch` by its `Serialize` derive: the three fields in
declaration order. -/
def branchJson (br : Branch) : Json :=
  .obj [("name", .str br.name),
        ("phonetic", .str br.phonetic),
        ("code", .str br.code)]

/-- Serialization of `Bank` by its `Serialize` derive: all five fields in
declaration order; `BankCode` is a newtype and serializes as its inner
string; nothing is skipped. -/
def bankJson (b : Bank) : Json :=
  .obj [("name", .str b.name),
        ("phonetic", .str b.phonetic),
        ("code", .str b.code.val),
        ("search_param", .str b.search_param),
        ("branches", .arr (b.branches.map branchJson))]

/-- Serialization of `HashMap<BankCode, Bank>`: one JSON object, keyed by the
code strings, in map entry order. -/
def bankMapJson (m : BankMap) : Json :=
  .obj (m.map (fun p => (p.1.val, bankJson p.2)))

/-- Rust `save_banks` (src/main.rs lines 226-231): the document written to
`dest/banks.json` is the serialization of `to_hashmap(banks)`; its byte
content is `(save_banks banks).render`. -/
def save_banks (banks : List Bank) : Json :=
  bankMapJson (to_hashmap banks)

/-- Field lookup during `serde` struct deserialization. -/
def getField : List (String × Json) → String → Option Json
  | [], _ => none
  | p :: rest, k => if p.1 = k then some p.2 else getField rest k

/-- Deserialization of `Branch`: requires the three string fields; unknown
fields are ignored; a missing or mistyped field is a `serde` error. -/
def deserializeBranch : Json → Except SerdeError Branch
  | .obj fields =>
    match getField fields "name", getField fields "phonetic",
          getField fields "code" with
    | some (.str n), some (.str p), some (.str c) =>
      .ok { name := n, phonetic := p, code := c }
    | _, _, _ => .error { msg := "invalid Branch" }
  | _ => .error { msg := "Branch: expected object" }

/-- Deserialization of `Bank`: all five fields are required (none has a
`serde` default or skip attribute), `branches` is an array of `Branch`. -/
def deserializeBank : Json → Except SerdeError Bank
  | .obj fields =>
    match getField fields "name", getField fields "phonetic",
          getField fields "code", getField fields "search_param",
          getField fields "branches" with
    | some (.str n), some (.str p), some (.str c), some (.str sp),
      some (.arr brs) =>
      (brs.mapM deserializeBranch).map
        (fun bl =>
          { name := n, phonetic := p, code := BankCode.mk c,
            search_param := sp, branches := bl })
    | _, _, _, _, _ => .error { msg := "invalid Bank" }
  | _ => .error { msg := "Bank: expected object" }

/-- Deserialization of `HashMap<BankCode, Bank>` from a JSON document: the
document must be one object; each key becomes a `BankCode`, each value a
`Bank`. -/
def deserializeBankMap : Json → Except SerdeError BankMap
  | .obj fields =>
    fields.mapM (fun p => (deserializeBank p.2).map (fun b => (BankCode.mk p.1, b)))
  | _ => .error { msg := "catalog: expected object" }

/-- State of the persisted file `dest/banks.json` as `load_banks` finds it:
missing (or otherwise unopenable), present but not well-formed JSON, or
well-formed JSON with the given document tree. -/
inductive FileContent where
  | missing
  | malformed (raw : String)
  | wellFormed (doc : Json)

/-- Rust `load_banks` (src/main.rs lines 233-237): `File::open(..).unwrap()`
panics (`none`) when the file cannot be opened; otherwise
`serde_json::from_reader` parses and deserializes, and any `serde` failure is
wrapped in `Error::LoadBanksFileFailed`. -/
def load_banks (fc : FileContent) : Option (Except Error BankMap) :=
  match fc with
  | .missing => none
  | .malformed raw =>
    some (.error (Error.LoadBanksFileFailed { msg := "syntax error: " ++ raw }))
  | .wellFormed doc =>
    some ((deserializeBankMap doc).mapError Error.LoadBanksFileFailed)

/-! ## Association-list lemmas for the keyed merge -/

/-- Folding `mapInsert` of each bank under its own code over a list. -/
def insertAll (m : BankMap) (banks : List Bank) : BankMap :=
  banks.foldl (fun acc b => mapInsert acc b.code b) m

theorem bank_to_hashmap_eq (b : Bank) : b.to_hashmap = [(b.code, b)] := rfl

theorem to_hashmap_eq_insertAll (banks : List Bank) :
    to_hashmap banks = insertAll [] banks := by
  have hfun : (fun (data : BankMap) (bank : Bank) => mapExtend data bank.to_hashmap) =
      (fun (acc : BankMap) (b : Bank) => mapInsert acc b.code b) := by
    funext data bank
    rw [bank_to_hashmap_eq]
    rfl
  unfold to_hashmap insertAll
  rw [hfun]

theorem any_key_iff (m : BankMap) (k : BankCode) :
    m.any (fun p => p.1 = k) = true ↔ k ∈ mapKeys m := by
  simp [mapKeys, List.any_eq_true, List.mem_map]

theorem mapKeys_mapInsert (m : BankMap) (k : BankCode) (v : Bank) :
    mapKeys (mapInsert m k v) =
      if k ∈ mapKeys m then mapKeys m else mapKeys m ++ [k] := by
  unfold mapInsert
  by_cases hk : k ∈ mapKeys m
  · rw [if_pos ((any_key_iff m k).mpr hk), if_pos hk]
    unfold mapKeys
    rw [List.map_map]
    apply List.map_congr_left
    intro p _
    by_cases hp : p.1 = k
    · simp [hp]
    · simp [hp]
  · have hany : m.any (fun p => p.1 = k) ≠ true := fun h => hk ((any_key_iff m k).mp h)
    rw [if_neg hany, if_neg hk]
    unfold mapKeys
    simp

theorem mapLookup_nil (k : BankCode) : mapLookup [] k = none := rfl

theorem mapLookup_mapInsert_map (m : BankMap) (k : BankCode) (v : Bank)
    (c : BankCode) (hc : c ≠ k) :
    List.find? (fun p => p.1 = c)
        (m.map (fun p => if p.1 = k then (k, v) else p)) =
      List.find? (fun p => p.1 = c) m := by
  induction m with
  | nil => rfl
  | cons q m ih =>
    by_cases hq : q.1 = k
    · rw [List.map_cons, if_pos hq, List.find?_cons_of_neg, List.find?_cons_of_neg]
      · exact ih
      · simp only [decide_eq_true_eq]
        rw [hq]
        exact fun h => hc h.symm
      · simp only [decide_eq_true_eq]
        exact fun h => hc h.symm
    · rw [List.map_cons, if_neg hq, List.find?_cons, List.find?_cons]
      cases hd : decide (q.1 = c) with
      | false => exact ih
      | true => rfl

theorem mapLookup_mapInsert_found (m : BankMap) (k : BankCode) (v : Bank)
    (hk : m.any (fun p => p.1 = k) = true) :
    List.find? (fun p => p.1 = k)
        (m.map (fun p => if p.1 = k then (k, v) else p)) = some (k, v) := by
  induction m with
  | nil => simp at hk
  | cons q m ih =>
    by_cases hq : q.1 = k
    · rw [List.map_cons, if_pos hq]
      apply List.find?_cons_of_pos
      simp
    · rw [List.map_cons, if_neg hq, List.find?_cons_of_neg]
      · apply ih
        simp only [List.any_cons, Bool.or_eq_true] at hk
        rcases hk with hk | hk
        · exact absurd (by simpa using hk) hq
        · exact hk
      · simpa using hq

theorem mapLookup_mapInsert (m : BankMap) (k : BankCode) (v : Bank)
    (c : BankCode) :
    mapLookup (mapInsert m k v) c = if c = k then some v else mapLookup m c := by
  unfold mapInsert mapLookup
  by_cases hany : m.any (fun p => p.1 = k) = true
  · rw [if_pos hany]
    by_cases hc : c = k
    · subst hc
      rw [if_pos rfl, mapLookup_mapInsert_found m c v hany]
      rfl
    · rw [if_neg hc, mapLookup_mapInsert_map m k v c hc]
  · rw [if_neg hany]
    rw [List.find?_append]
    by_cases hc : c = k
    · subst hc
      have hnone : List.find? (fun p => p.1 = c) m = none := by
        rw [List.find?_eq_none]
        intro p hp hdec
        apply hany
        rw [List.any_eq_true]
        refine ⟨p, hp, ?_⟩
        simpa using hdec
      rw [if_pos rfl, hnone]
      simp
    · rw [if_neg hc]
      cases hfind : List.find? (fun p => p.1 = c) m with
      | some p => rfl
      | none =>
        simp only [Option.none_or]
        have : decide ((( k, v) : BankCode × Bank).1 = c) = false := by
          simp
          exact fun h => hc h.symm
        simp [List.find?, this]

theorem insertAll_cons (m : BankMap) (b : Bank) (L : List Bank) :
    insertAll m (b :: L) = insertAll (mapInsert m b.code b) L := rfl

theorem find?_singleton_code (b : Bank) (c : BankCode) :
    List.find? (fun b => b.code = c) [b] = if b.code = c then some b else none := by
  by_cases h : b.code = c
  · simp [List.find?_cons, h]
  · simp [List.find?_cons, h]

theorem mapLookup_insertAll (L : List Bank) (m : BankMap) (c : BankCode) :
    mapLookup (insertAll m L) c =
      match L.reverse.find? (fun b => b.code = c) with
      | some b => some b
      | none => mapLookup m c := by
  induction L generalizing m with
  | nil => rfl
  | cons b L ih =>
    rw [insertAll_cons, ih, List.reverse_cons, List.find?_append]
    cases hfind : List.find? (fun b => b.code = c) L.reverse with
    | some b' => rfl
    | none =>
      simp only [Option.none_or]
      rw [mapLookup_mapInsert, find?_singleton_code]
      by_cases h : b.code = c
      · rw [if_pos h, if_pos h.symm]
      · rw [if_neg h, if_neg (fun hh => h hh.symm)]

theorem mapKeys_insertAll_toFinset (L : List Bank) (m : BankMap) :
    (mapKeys (insertAll m L)).toFinset =
      (mapKeys m).toFinset ∪ (L.map (fun b => b.code)).toFinset := by
  induction L generalizing m with
  | nil => simp [insertAll]
  | cons b L ih =>
    rw [insertAll_cons, ih, mapKeys_mapInsert]
    by_cases hb : b.code ∈ mapKeys m
    · rw [if_pos hb]
      have : b.code ∈ (mapKeys m).toFinset := List.mem_toFinset.mpr hb
      simp only [List.map_cons, List.toFinset_cons]
      rw [Finset.union_insert, Finset.insert_eq_self.mpr (Finset.mem_union_left _ this)]
    · rw [if_neg hb]
      simp only [List.map_cons, List.toFinset_cons, List.toFinset_append]
      simp only [List.toFinset_cons, List.toFinset_nil]
      rw [Finset.union_insert]
      ext x
      simp [or_comm, or_assoc, or_left_comm]

theorem mapKeys_insertAll_nodup (L : List Bank) (m : BankMap)
    (hm : (mapKeys m).Nodup) : (mapKeys (insertAll m L)).Nodup := by
  induction L generalizing m with
  | nil => exact hm
  | cons b L ih =>
    rw [insertAll_cons]
    apply ih
    rw [mapKeys_mapInsert]
    by_cases hb : b.code ∈ mapKeys m
    · rw [if_pos hb]
      exact hm
    · rw [if_neg hb]
      rw [List.nodup_append]
      exact ⟨hm, List.nodup_singleton _, by simpa using hb⟩

theorem codes_consistent_insertAll (L : List Bank) (m : BankMap)
    (hm : ∀ p ∈ m, p.2.code = p.1) :
    ∀ p ∈ insertAll m L, p.2.code = p.1 := by
  induction L generalizing m with
  | nil => exact hm
  | cons b L ih =>
    rw [insertAll_cons]
    apply ih
    intro p hp
    unfold mapInsert at hp
    by_cases hany : m.any (fun q => q.1 = b.code) = true
    · rw [if_pos hany] at hp
      rcases List.mem_map.mp hp with ⟨q, hq, hfq⟩
      by_cases hqb : q.1 = b.code
      · rw [if_pos hqb] at hfq
        rw [← hfq]
      · rw [if_neg hqb] at hfq
        rw [← hfq]
        exact hm q hq
    · rw [if_neg hany] at hp
      rcases List.mem_append.mp hp with hp | hp
      · exact hm p hp
      · rcases List.mem_singleton.mp hp with rfl
        rfl

/-- Claim C5: the catalog produced by `to_hashmap` has exactly one entry per
institution code — its key count equals the number of distinct codes in the
input — and looking any code up yields the LAST input bank carrying that
code, wholesale (last-write-wins, no branch-list merging). -/
theorem to_hashmap_one_entry_per_code (L : List Bank) :
    (to_hashmap L).length = (L.map (fun b => b.code)).dedup.length ∧
    ∀ c : BankCode, mapLookup (to_hashmap L) c =
      L.reverse.find? (fun b => b.code = c) := by
  constructor
  · have hlen : (to_hashmap L).length = (mapKeys (to_hashmap L)).length := by
      unfold mapKeys
      rw [List.length_map]
    have hnodup : (mapKeys (to_hashmap L)).Nodup := by
      rw [to_hashmap_eq_insertAll]
      exact mapKeys_insertAll_nodup L [] (by simp [mapKeys])
    have hfin : (mapKeys (to_hashmap L)).toFinset =
        (L.map (fun b => b.code)).toFinset := by
      rw [to_hashmap_eq_insertAll, mapKeys_insertAll_toFinset]
      simp [mapKeys]
    rw [hlen, ← List.toFinset_card_of_nodup hnodup, hfin, List.card_toFinset]
  · intro c
    rw [to_hashmap_eq_insertAll, mapLookup_insertAll]
    cases hfind : List.find? (fun b => b.code = c) L.reverse with
    | some b => rfl
    | none => rfl

theorem mapInsert_cons_ne (k : BankCode) (b : Bank) (m : BankMap)
    (k' : BankCode) (v : Bank) (h : k' ≠ k) :
    mapInsert ((k, b) :: m) k' v = (k, b) :: mapInsert m k' v := by
  unfold mapInsert
  have hkb : decide (((k, b) : BankCode × Bank).1 = k') = false := by
    simp only [decide_eq_false_iff_not]
    exact fun hh => h hh.symm
  rw [List.any_cons, hkb, Bool.false_or]
  by_cases hany : m.any (fun p => p.1 = k') = true
  · rw [if_pos hany, if_pos hany, List.map_cons,
      if_neg (fun hh : k = k' => h hh.symm)]
  · rw [if_neg hany, if_neg hany, List.cons_append]

theorem insertAll_cons_notmem (k : BankCode) (b : Bank) (m : BankMap)
    (L : List Bank) (hk : ∀ b' ∈ L, b'.code ≠ k) :
    insertAll ((k, b) :: m) L = (k, b) :: insertAll m L := by
  induction L generalizing m with
  | nil => rfl
  | cons b' L ih =>
    rw [insertAll_cons, insertAll_cons,
      mapInsert_cons_ne k b m b'.code b' (hk b' (List.mem_cons_self b' L))]
    exact ih (mapInsert m b'.code b') (fun x hx => hk x (List.mem_cons_of_mem b' hx))

theorem insertAll_values_id (m : BankMap)
    (hcodes : ∀ p ∈ m, p.2.code = p.1) (hnodup : (mapKeys m).Nodup) :
    insertAll [] (m.map Prod.snd) = m := by
  induction m with
  | nil => rfl
  | cons p m ih =>
    obtain ⟨k, b⟩ := p
    have hb : b.code = k := hcodes (k, b) (List.mem_cons_self _ _)
    have hm : ∀ q ∈ m, q.2.code = q.1 :=
      fun q hq => hcodes q (List.mem_cons_of_mem _ hq)
    have hkm : k ∉ mapKeys m := by
      have := hnodup
      rw [mapKeys, List.map_cons, List.nodup_cons] at this
      exact this.1
    have hnm : (mapKeys m).Nodup := by
      have := hnodup
      rw [mapKeys, List.map_cons, List.nodup_cons] at this
      exact this.2
    rw [List.map_cons, insertAll_cons]
    have hins : mapInsert [] b.code b = [(k, b)] := by
      unfold mapInsert
      rw [hb]
      rfl
    rw [hins, insertAll_cons_notmem k b [] (m.map Prod.snd)]
    · rw [ih hm hnm]
    · intro b' hb'
      rcases List.mem_map.mp hb' with ⟨q, hq, rfl⟩
      rw [hm q hq]
      intro hqk
      exact hkm (hqk ▸ List.mem_map.mpr ⟨q, hq, rfl⟩)

/-- Claim C6: `to_hashmap` (the keyed merge) is idempotent — re-merging the
values of the catalog produced by `to_hashmap L` yields the very same
catalog. -/
theorem to_hashmap_idempotent (L : List Bank) :
    to_hashmap ((to_hashmap L).map Prod.snd) = to_hashmap L := by
  rw [to_hashmap_eq_insertAll ((to_hashmap L).map Prod.snd)]
  apply insertAll_values_id
  · rw [to_hashmap_eq_insertAll]
    exact codes_consistent_insertAll L [] (by intro p hp; simp at hp)
  · rw [to_hashmap_eq_insertAll]
    exact mapKeys_insertAll_nodup L [] (by simp [mapKeys])

/-! ## Fan-out theorems -/

/-- Payloads of the shards that joined successfully AND returned `Ok`, in
input order. -/
def successfulPayloads {α : Type} (results : List (TaskOutcome α)) : List α :=
  results.filterMap (fun r =>
    match r with
    | .ok (.ok v) => some v
    | _ => none)

theorem mapM_filter_unwrapTwice {α : Type} (results : List (TaskOutcome α))
    (h : ∀ r ∈ results, taskIsOk r = true → (unwrapTwice r).isSome = true) :
    (results.filter taskIsOk).mapM unwrapTwice = some (successfulPayloads results) := by
  induction results with
  | nil => rfl
  | cons r rest ih =>
    have hrest : ∀ x ∈ rest, taskIsOk x = true → (unwrapTwice x).isSome = true :=
      fun x hx => h x (List.mem_cons_of_mem r hx)
    match r with
    | .error j =>
      rw [show successfulPayloads (Except.error j :: rest) = successfulPayloads rest from rfl]
      rw [show (Except.error j :: rest).filter taskIsOk = rest.filter taskIsOk from rfl]
      exact ih hrest
    | .ok (.ok v) =>
      rw [show successfulPayloads (Except.ok (Except.ok v) :: rest) =
            v :: successfulPayloads rest from rfl]
      rw [show (Except.ok (Except.ok v) :: rest).filter taskIsOk =
            Except.ok (Except.ok v) :: rest.filter taskIsOk from rfl]
      rw [List.mapM_cons, ih hrest]
      rfl
    | .ok (.error e) =>
      exfalso
      have := h (Except.ok (Except.error e)) (List.mem_cons_self _ _) rfl
      simp [unwrapTwice] at this

/-- Claim C2, counterexample input: shard A joins and returns the institution
with code "0111"; shard B joins but its fetch failed with a network error. -/
def c2Shards : List (TaskOutcome (List Bank)) :=
  [Except.ok (Except.ok [Bank.new "いぬ銀行" "ｲﾇ" "0111" "0x111"]),
   Except.ok (Except.error (Error.FetchBankError { msg := "connection refused" }))]

/-- Claim C2 is false on the code: with shard A returning the "0111"
institution and shard B returning a network error, `fetch_all_banks` panics
(the second `unwrap` hits the `Err`), modelled as `none` — it neither
completes nor yields the catalog of the surviving shard. -/
theorem fetch_all_banks_cex :
    fetch_all_banks c2Shards = none ∧
    fetch_all_banks c2Shards ≠ some [Bank.new "いぬ銀行" "ｲﾇ" "0111" "0x111"] := by
  refine ⟨rfl, fun h => ?_⟩
  exact Option.noConfusion ((rfl : fetch_all_banks c2Shards = none) ▸ h)

/-- Claim C2, amended: `fetch_all_banks` waits for all tasks and silently
drops only the shards that fail at the JOIN level (task panic/cancellation);
a shard whose fetch itself returned `Err` makes the whole aggregation panic.
When no joined shard carries an `Err`, the result is the flattened
concatenation of the successful shards. -/
theorem fetch_all_banks_join_failures_dropped
    (results : List (TaskOutcome (List Bank)))
    (h : ∀ r ∈ results, taskIsOk r = true → (unwrapTwice r).isSome = true) :
    fetch_all_banks results = some (successfulPayloads results).flatten := by
  unfold fetch_all_banks
  rw [mapM_filter_unwrapTwice results h]
  rfl

/-- Witness for the amended C2 theorem: one shard succeeds with the "0111"
institution, one task fails at the join level (a panic) and is dropped. -/
theorem fetch_all_banks_join_failures_dropped_witness :
    fetch_all_banks
        [Except.ok (Except.ok [Bank.new "いぬ銀行" "ｲﾇ" "0111" "0x111"]),
         Except.error (JoinError.mk "task panicked")] =
      some [Bank.new "いぬ銀行" "ｲﾇ" "0111" "0x111"] := by
  have := fetch_all_banks_join_failures_dropped
    [Except.ok (Except.ok [Bank.new "いぬ銀行" "ｲﾇ" "0111" "0x111"]),
     Except.error (JoinError.mk "task panicked")]
    (by decide)
  simpa using this

/-- Claim C8: `Bank::fetch_all_branches` assigns the flattened successful
shard outputs to the branch list wholesale — the previous contents are
discarded and play no role in the outcome. -/
theorem fetch_all_branches_replaces_wholesale (bank : Bank)
    (prev : List Branch) (results : List (TaskOutcome (List Branch)))
    (h : ∀ r ∈ results, taskIsOk r = true → (unwrapTwice r).isSome = true) :
    Bank.fetch_all_branches { bank with branches := prev } results =
      some (Except.ok { bank with branches := (successfulPayloads results).flatten }) := by
  unfold Bank.fetch_all_branches
  rw [mapM_filter_unwrapTwice results h]
  rfl

/-- Witness for C8: institution "2740", key set consisting of "う" alone,
whose single branch fetch parses a sentinel-only page to `[]`; the branch
list — previously nonempty — is set to the explicit empty list. -/
theorem fetch_all_branches_replaces_wholesale_witness :
    Bank.fetch_all_branches
        { name := "うみ銀行", phonetic := "ｳﾐ", code := BankCode.mk "2740",
          search_param := "0x274",
          branches := [Branch.new "ふる支店" "ﾌﾙ" "0999"] }
        [Except.ok (Except.ok ((parse_branches [[Cell.mk [sentinel] none]]).getD [Branch.new "x" "x" "x"]))] =
      some (Except.ok
        { name := "うみ銀行", phonetic := "ｳﾐ", code := BankCode.mk "2740",
          search_param := "0x274", branches := [] }) := by
  have := fetch_all_branches_replaces_wholesale
    { name := "うみ銀行", phonetic := "ｳﾐ", code := BankCode.mk "2740",
      search_param := "0x274", branches := [] }
    [Branch.new "ふる支店" "ﾌﾙ" "0999"]
    [Except.ok (Except.ok ((parse_branches [[Cell.mk [sentinel] none]]).getD [Branch.new "x" "x" "x"]))]
    (by decide)
  simpa using this

/-- Claim C9: whenever `Bank::fetch_all_branches` returns rather than
panicking, it returns `Ok`; the declared `Error` result is never produced. -/
theorem fetch_all_branches_never_errors (bank : Bank)
    (results : List (TaskOutcome (List Branch))) :
    Bank.fetch_all_branches bank results = none ∨
      ∃ b : Bank, Bank.fetch_all_branches bank results = some (Except.ok b) := by
  unfold Bank.fetch_all_branches
  cases hm : (results.filter taskIsOk).mapM unwrapTwice with
  | none =>
    left
    rfl
  | some ls =>
    right
    exact ⟨{ bank with branches := ls.flatten }, rfl⟩

/-! ## Parser theorems -/

theorem mapM_eq_none_of_mem {α β : Type} (l : List α) (f : α → Option β)
    (a : α) (ha : a ∈ l) (hf : f a = none) : l.mapM f = none := by
  induction l with
  | nil => cases ha
  | cons x l ih =>
    rw [List.mapM_cons]
    rcases List.mem_cons.mp ha with rfl | ha'
    · rw [hf]
      rfl
    · cases hx : f x with
      | none => rfl
      | some b =>
        rw [ih ha']
        rfl

theorem mapM_isSome_length {α β : Type} (l : List α) (f : α → Option β)
    (h : ∀ a ∈ l, (f a).isSome = true) :
    ∃ bs : List β, l.mapM f = some bs ∧ bs.length = l.length := by
  induction l with
  | nil => exact ⟨[], rfl, rfl⟩
  | cons x l ih =>
    obtain ⟨bs, hbs, hlen⟩ := ih (fun a ha => h a (List.mem_cons_of_mem x ha))
    obtain ⟨b, hb⟩ := Option.isSome_iff_exists.mp (h x (List.mem_cons_self x l))
    refine ⟨b :: bs, ?_, by simp [hlen]⟩
    rw [List.mapM_cons, hb, hbs]
    rfl

theorem length_filter_add_length_filter_not {α : Type} (l : List α) (p : α → Bool) :
    (l.filter p).length + (l.filter (fun a => ! p a)).length = l.length := by
  induction l with
  | nil => rfl
  | cons x l ih =>
    cases hx : p x with
    | true =>
      simp [List.filter_cons, hx]
      omega
    | false =>
      simp [List.filter_cons, hx]
      omega

/-- Claim C3, counterexample inputs: a well-formed branch row followed by a
row missing its phonetic and code cells. -/
def c3GoodRow : Row :=
  [Cell.mk ["みけ支店"] none, Cell.mk ["ﾐｹ"] none, Cell.mk ["0123"] none]

/-- Claim C3, the malformed row: a single cell where three are expected. -/
def c3BadRow : Row :=
  [Cell.mk ["とら支店"] none]

/-- Claim C3 is false on the code: a row missing an expected cell does not
get skipped with the rest of the batch still returned — the `unwrap` on the
missing cell panics the whole parse (modelled as `none`), destroying the
well-formed row as well. -/
theorem parse_branches_cex :
    parse_branches [c3GoodRow, c3BadRow] = none ∧
    parse_branches [c3GoodRow, c3BadRow] ≠
      some [Branch.new "みけ支店" "ﾐｹ" "0123"] := by
  refine ⟨rfl, fun h => ?_⟩
  exact Option.noConfusion
    ((rfl : parse_branches [c3GoodRow, c3BadRow] = none) ▸ h)

/-- Claim C3, amended: in both parsers, a surviving row that is missing an
expected cell (or, for institution rows, a usable token cell) panics the
ENTIRE parse — nothing at all is returned for the batch, rather than the row
being skipped. -/
theorem parse_row_failure_aborts :
    (∀ (rows : List Row) (row : Row), row ∈ rows.filter filter_blank →
      parseBranchRow row = none → parse_branches rows = none) ∧
    (∀ (rows : List Row) (row : Row), row ∈ rows.filter filter_blank →
      parseBankRow row = none → parse_banks rows = none) := by
  constructor
  · intro rows row hmem hbad
    exact mapM_eq_none_of_mem _ parseBranchRow row hmem hbad
  · intro rows row hmem hbad
    exact mapM_eq_none_of_mem _ parseBankRow row hmem hbad

/-- Witness for the amended C3 theorem at the counterexample rows (and, for
the institution parser, a four-cell row whose button has no value
attribute). -/
theorem parse_row_failure_aborts_witness :
    parse_branches [c3GoodRow, c3BadRow] = none ∧
    parse_banks [[Cell.mk ["ねこ銀行"] none, Cell.mk ["ﾈｺ"] none,
                  Cell.mk ["0222"] none, Cell.mk [] (some none)]] = none := by
  constructor
  · exact parse_row_failure_aborts.1 [c3GoodRow, c3BadRow] c3BadRow
      (by decide) (by decide)
  · exact parse_row_failure_aborts.2 _
      [Cell.mk ["ねこ銀行"] none, Cell.mk ["ﾈｺ"] none,
       Cell.mk ["0222"] none, Cell.mk [] (some none)]
      (by decide) (by decide)

/-- Claim C4, counterexample input: a three-cell row containing no text node
at all; its text content is the empty string, not the sentinel. -/
def c4EmptyRow : Row :=
  [Cell.mk [] none, Cell.mk [] none, Cell.mk [] none]

/-- Claim C4 is false on the code: the content of the textless row is not the
sentinel, so by the claim it should survive and be parsed (one data row,
zero sentinel rows), yet `filter_blank` drops it — the parse returns zero
rows instead of one. -/
theorem parse_branches_drop_cex :
    parse_branches [c4EmptyRow] = some [] ∧
    rowText c4EmptyRow ≠ sentinel ∧
    ([c4EmptyRow] : List Row).length -
      (([c4EmptyRow] : List Row).filter (fun r => rowText r = sentinel)).length = 1 := by
  refine ⟨rfl, by decide, by decide⟩

/-- Claim C4, amended: a row is dropped exactly when it has NO text node at
all or its FIRST text node equals the sentinel; for a response whose
surviving rows are well-formed, the parsed row count is the data-row count
minus the dropped rows; a response containing only sentinel-marked rows
parses to the empty list. -/
theorem parse_branches_drop_law :
    (∀ row : Row, filter_blank row = false ↔
      (rowFirstText row = none ∨ rowFirstText row = some sentinel)) ∧
    (∀ rows : List Row,
      (∀ r ∈ rows.filter filter_blank, (parseBranchRow r).isSome = true) →
      ∃ bs, parse_branches rows = some bs ∧
        bs.length = rows.length -
          (rows.filter (fun r => ! filter_blank r)).length) ∧
    (∀ rows : List Row, (∀ r ∈ rows, rowFirstText r = some sentinel) →
      parse_branches rows = some []) := by
  refine ⟨?_, ?_, ?_⟩
  · intro row
    unfold filter_blank
    cases h : rowFirstText row with
    | none => simp
    | some t =>
      simp only [decide_eq_false_iff_not, not_not]
      constructor
      · intro ht
        right
        rw [ht]
      · rintro (hc | hc)
        · exact Option.noConfusion hc
        · exact (Option.some.injEq _ _ ▸ hc)
  · intro rows hok
    obtain ⟨bs, hbs, hlen⟩ :=
      mapM_isSome_length (rows.filter filter_blank) parseBranchRow hok
    refine ⟨bs, hbs, ?_⟩
    rw [hlen]
    have := length_filter_add_length_filter_not rows filter_blank
    omega
  · intro rows hall
    have hfil : rows.filter filter_blank = [] := by
      rw [List.filter_eq_nil_iff]
      intro r hr
      unfold filter_blank
      rw [hall r hr]
      simp
    unfold parse_branches
    rw [hfil]
    rfl

/-- Witness for the amended C4 theorem: a sentinel row plus a well-formed
row — one row is dropped, one survives; and a sentinel-only response parses
to the empty list. -/
theorem parse_branches_drop_law_witness :
    filter_blank ([] : Row) = false ∧
    (∃ bs, parse_branches [[Cell.mk [sentinel] none], c3GoodRow] = some bs ∧
      bs.length = ([[Cell.mk [sentinel] none], c3GoodRow] : List Row).length -
        (([[Cell.mk [sentinel] none], c3GoodRow] : List Row).filter
          (fun r => ! filter_blank r)).length) ∧
    parse_branches [[Cell.mk [sentinel] none]] = some [] := by
  refine ⟨?_, ?_, ?_⟩
  · exact (parse_branches_drop_law.1 []).mpr (Or.inl rfl)
  · exact parse_branches_drop_law.2.1 [[Cell.mk [sentinel] none], c3GoodRow]
      (by decide)
  · exact parse_branches_drop_law.2.2 [[Cell.mk [sentinel] none]] (by decide)

/-! ## Persistence theorems -/

/-- Top-level keys of a JSON object (empty for non-objects). -/
def Json.objKeys : Json → List String
  | .obj fields => fields.map Prod.fst
  | _ => []

/-- Top-level key-value entries of a JSON object (empty for non-objects). -/
def Json.objFields : Json → List (String × Json)
  | .obj fields => fields
  | _ => []

/-- Claim C1, counterexample input: the test fixture bank "ねこ銀行" with
code "0222" and token "0x222". -/
def c1Bank : Bank := Bank.new "ねこ銀行" "ﾈｺ" "0222" "0x222"

/-- Claim C1 is false on the code: the document `save_banks` writes is keyed
by institution code, but each value is the full `Serialize` derive of `Bank`,
which has no skip attribute — the value carries a "search_param" field, so
the opaque token IS persisted. -/
theorem save_banks_token_cex :
    save_banks [c1Bank] = Json.obj [("0222", bankJson c1Bank)] ∧
    "search_param" ∈ (bankJson c1Bank).objKeys := by
  exact ⟨rfl, by decide⟩

/-- Claim C1, amended: the persisted JSON is one object keyed by institution
code whose values contain name, phonetic, code, branches AND the opaque
query token — `search_param` is serialized like every other field and is
persisted. -/
theorem save_banks_token_persisted (banks : List Bank) :
    (save_banks banks).objKeys = (mapKeys (to_hashmap banks)).map BankCode.val ∧
    ∀ p ∈ to_hashmap banks,
      ∃ fields, bankJson p.2 = Json.obj fields ∧
        fields.map Prod.fst =
          ["name", "phonetic", "code", "search_param", "branches"] := by
  constructor
  · show ((to_hashmap banks).map (fun p => (p.1.val, bankJson p.2))).map Prod.fst =
      ((to_hashmap banks).map (fun p => p.1)).map BankCode.val
    rw [List.map_map, List.map_map]
    rfl
  · intro p _
    exact ⟨_, rfl, rfl⟩

/-- Witness for the amended C1 theorem at the fixture bank. -/
theorem save_banks_token_persisted_witness :
    (save_banks [c1Bank]).objKeys =
      (mapKeys (to_hashmap [c1Bank])).map BankCode.val ∧
    ∃ fields, bankJson c1Bank = Json.obj fields ∧
      fields.map Prod.fst =
        ["name", "phonetic", "code", "search_param", "branches"] := by
  refine ⟨(save_banks_token_persisted [c1Bank]).1, ?_⟩
  exact (save_banks_token_persisted [c1Bank]).2 (BankCode.mk "0222", c1Bank)
    (by decide)

theorem deserializeBranch_branchJson (br : Branch) :
    deserializeBranch (branchJson br) = Except.ok br := rfl

theorem mapM_deserializeBranch (brs : List Branch) :
    (brs.map branchJson).mapM deserializeBranch = Except.ok brs := by
  induction brs with
  | nil => rfl
  | cons br brs ih =>
    rw [List.map_cons, List.mapM_cons, deserializeBranch_branchJson, ih]
    rfl

theorem deserializeBank_bankJson (b : Bank) :
    deserializeBank (bankJson b) = Except.ok b := by
  show ((b.branches.map branchJson).mapM deserializeBranch).map _ = _
  rw [mapM_deserializeBranch]
  rfl

theorem mapM_deserializeBank_entries (m : BankMap) :
    (m.map (fun p => (p.1.val, bankJson p.2))).mapM
        (fun p => (deserializeBank p.2).map (fun b => (BankCode.mk p.1, b))) =
      Except.ok m := by
  induction m with
  | nil => rfl
  | cons p m ih =>
    rw [List.map_cons, List.mapM_cons, ih]
    simp only [deserializeBank_bankJson]
    rfl

theorem deserializeBankMap_bankMapJson (m : BankMap) :
    deserializeBankMap (bankMapJson m) = Except.ok m := by
  show (m.map (fun p => (p.1.val, bankJson p.2))).mapM
      (fun p => (deserializeBank p.2).map (fun b => (BankCode.mk p.1, b))) =
    Except.ok m
  exact mapM_deserializeBank_entries m

/-- Claim C7, counterexample input: a bank with code "2740" carrying the
opaque token "0x274". -/
def c7Bank : Bank := Bank.new "うみ銀行" "ｳﾐ" "2740" "0x274"

/-- Claim C7 is false on the code: the opaque token is NOT absent from the
round trip — the value in the saved document carries a "search_param" key, and
loading the saved document yields a bank whose `search_param` is still
"0x274". -/
theorem save_load_token_cex :
    save_banks [c7Bank] = Json.obj [("2740", bankJson c7Bank)] ∧
    "search_param" ∈ (bankJson c7Bank).objKeys ∧
    (deserializeBankMap (save_banks [c7Bank])).toOption.map
        (fun m => m.map (fun p => p.2.search_param)) = some ["0x274"] := by
  refine ⟨rfl, by decide, ?_⟩
  have h := deserializeBankMap_bankMapJson (to_hashmap [c7Bank])
  show (deserializeBankMap (bankMapJson (to_hashmap [c7Bank]))).toOption.map _ = _
  rw [h]
  rfl

/-- Claim C7, amended: loading the saved document succeeds and yields
exactly the saved catalog — `load` preserves name, phonetic, code, branches
AND `search_param` exactly, the opaque token being present on both sides of
the round trip rather than absent. Re-saving the loaded catalog emits a
document whose entries are a permutation of the original ones; because the
iteration order of the Rust `HashMap` is unspecified, byte-equality of
`save(load(save(c)))` with `save(c)` is guaranteed only up to the order of
entries, and holds outright for catalogs of at most one institution, where
the order is forced. -/
theorem save_load_roundtrip :
    (∀ banks : List Bank,
      deserializeBankMap (save_banks banks) = Except.ok (to_hashmap banks)) ∧
    (∀ banks : List Bank,
      ((bankMapJson (to_hashmap banks)).objFields).Perm
        ((save_banks banks).objFields)) ∧
    (∀ b : Bank,
      (bankMapJson (to_hashmap [b])).render = (save_banks [b]).render) := by
  refine ⟨?_, ?_, ?_⟩
  · intro banks
    show deserializeBankMap (bankMapJson (to_hashmap banks)) = _
    exact deserializeBankMap_bankMapJson (to_hashmap banks)
  · intro banks
    exact List.Perm.refl _
  · intro b
    rfl

/-- Claim C10: `load_banks` returns an error value only from the `serde`
layer — always a `LoadBanksFileFailed` format error, and only when the file
was actually openable; when the file cannot be opened at all, it panics
(`none`) rather than returning any error value. -/
theorem load_banks_error_taxonomy :
    load_banks FileContent.missing = none ∧
    (∀ raw : String, ∃ se : SerdeError,
      load_banks (FileContent.malformed raw) =
        some (Except.error (Error.LoadBanksFileFailed se))) ∧
    (∀ (fc : FileContent) (err : Error),
      load_banks fc = some (Except.error err) →
      fc ≠ FileContent.missing ∧ ∃ se, err = Error.LoadBanksFileFailed se) := by
  refine ⟨rfl, fun raw => ⟨{ msg := "syntax error: " ++ raw }, rfl⟩, ?_⟩
  intro fc err h
  cases fc with
  | missing => exact Option.noConfusion h
  | malformed raw =>
    refine ⟨fun hc => FileContent.noConfusion hc, ?_⟩
    have h1 : Except.error (Error.LoadBanksFileFailed { msg := "syntax error: " ++ raw }) =
        (Except.error err : Except Error BankMap) := Option.some.inj h
    have h2 : Error.LoadBanksFileFailed { msg := "syntax error: " ++ raw } = err := by
      injection h1
    exact ⟨_, h2.symm⟩
  | wellFormed doc =>
    refine ⟨fun hc => FileContent.noConfusion hc, ?_⟩
    have h' : (deserializeBankMap doc).mapError Error.LoadBanksFileFailed =
        Except.error err := Option.some.inj h
    cases hd : deserializeBankMap doc with
    | ok m =>
      rw [hd] at h'
      exact Except.noConfusion h'
    | error se =>
      rw [hd] at h'
      have : Error.LoadBanksFileFailed se = err := by
        injection h'
      exact ⟨se, this.symm⟩

/-- Witness for the C10 theorem: a present-but-malformed file yields the
format error, and the implication component applied there shows the file was
openable and the error is `LoadBanksFileFailed`. -/
theorem load_banks_error_taxonomy_witness :
    FileContent.malformed "oops" ≠ FileContent.missing ∧
    ∃ se, Error.LoadBanksFileFailed { msg := "syntax error: " ++ "oops" } =
      Error.LoadBanksFileFailed se :=
  load_banks_error_taxonomy.2.2 (FileContent.malformed "oops")
    (Error.LoadBanksFileFailed { msg := "syntax error: " ++ "oops" }) rfl
